import Mathlib

/-!
Verification development for sqlfluff-lsp, a language server that keeps
per-document diagnostics in sync with document edits by delegating analysis
to an external `sqlfluff` process.

The development shallowly embeds the three source files:
  * `src/sqlfluff.rs` — command construction, lint-output conversion, and
    the whole-document formatting edit;
  * `src/lsp.rs` — the document registry (a map from URI to a watch
    channel), the notification handlers, and the per-document revalidation
    loop spawned on `did_open`;
  * the revalidation loop and the tokio `watch` channel are modelled as a
    small-step transition system over an explicit state record.

Machine integers are modelled as `Nat`; the only place the source performs
a lossy cast (`as u32`) or a panicking unsigned subtraction is in position
conversion, which is modelled with an explicit `% 2^32` and a checked
subtraction returning `Option`.
-/

namespace SqlfluffLsp

/-! ## LSP data types (from `tower_lsp_server::lsp_types`) -/

/-- A zero-based line/character position. The source stores these as `u32`. -/
structure Position where
  line : Nat
  character : Nat
deriving DecidableEq, Repr

/-- A source range. The source field named `end` is called `stop` here
because `end` is a Lean keyword. -/
structure Range where
  start : Position
  stop : Position
deriving DecidableEq, Repr

/-- Diagnostic severities used by the protocol. -/
inductive DiagnosticSeverity where
  | error
  | warning
  | information
  | hint
deriving DecidableEq, Repr

/-- One reported finding, mirroring the fields of `lsp_types::Diagnostic`
that `src/sqlfluff.rs` populates. -/
structure Diagnostic where
  range : Range
  severity : Option DiagnosticSeverity
  source : Option String
  message : String
deriving DecidableEq, Repr

/-- A text edit: a range to replace and the replacement text. -/
structure TextEdit where
  range : Range
  newText : String
deriving DecidableEq, Repr

/-! ## Configuration and command construction (`src/sqlfluff.rs`, `src/lsp.rs`) -/

/-- Startup configuration, from `Config` in `src/lsp.rs` lines 16-21. -/
structure Config where
  dialect : Option String
  templater : Option String
  sqlfluff_path : Option String
deriving DecidableEq, Repr

/-- A process invocation: the program to spawn and its argument list,
mirroring `tokio::process::Command`. -/
structure Cmd where
  program : String
  args : List String
deriving DecidableEq, Repr

/-- `Sqlfluff::new` (`src/sqlfluff.rs` lines 115-119): the program is the
hard-coded literal string "sqlfluff" and the subcommand is the first
argument. -/
def sqlfluffNew (command : String) : Cmd :=
  { program := "sqlfluff", args := [command] }

/-- `Sqlfluff::dialect` (`src/sqlfluff.rs` lines 120-125): appends
`--dialect=<d>` when a dialect is configured, otherwise leaves the command
unchanged. -/
def cmdDialect (c : Cmd) (dialect : Option String) : Cmd :=
  match dialect with
  | some d => { c with args := c.args ++ ["--dialect=" ++ d] }
  | none => c

/-- `Sqlfluff::args` (`src/sqlfluff.rs` lines 126-129): appends the given
arguments. -/
def cmdArgs (c : Cmd) (extra : List String) : Cmd :=
  { c with args := c.args ++ extra }

/-- The command built by `lint` (`src/sqlfluff.rs` lines 23-33) for a
document whose URI path is `path`. Only the dialect from the configuration
reaches the builder; the templater and the path override have no path into
`src/sqlfluff.rs` at all. -/
def lintInvocation (cfg : Config) (path : String) : Cmd :=
  cmdArgs (cmdDialect (sqlfluffNew "lint") cfg.dialect)
    ["--stdin-filename=" ++ path, "--disable-progress-bar", "--nocolor",
     "--format=github-annotation", "--nofail", "-"]

/-- The command built by `fmt` (`src/sqlfluff.rs` lines 74-83). -/
def fixInvocation (cfg : Config) (path : String) : Cmd :=
  cmdArgs (cmdDialect (sqlfluffNew "fix") cfg.dialect)
    ["--stdin-filename=" ++ path, "--disable-progress-bar", "--nocolor",
     "--quiet", "-"]

/-! ## Lint output conversion (`src/sqlfluff.rs` lines 9-16, 36-66) -/

/-- One record of the analyzer JSON output (`LintOutput` in
`src/sqlfluff.rs`), with 1-based positions. -/
structure LintOutput where
  start_line : Nat
  start_column : Nat
  end_line : Nat
  end_column : Nat
  message : String
deriving DecidableEq, Repr

/-- The conversion `(n - 1) as u32` applied to each position: unsigned
subtraction panics on underflow (n = 0) in debug builds, modelled as
`none`; otherwise the result is truncated to 32 bits. -/
def sub1AsU32 (n : Nat) : Option Nat :=
  if n = 0 then none else some ((n - 1) % 4294967296)

/-- The per-record mapping in `lint` (`src/sqlfluff.rs` lines 47-62):
positions are decremented and truncated, severity is fixed to warning, and
the source tag is the literal "sqlfluff-lsp". -/
def lintRecordToDiag (l : LintOutput) : Option Diagnostic :=
  match sub1AsU32 l.start_line, sub1AsU32 l.start_column,
        sub1AsU32 l.end_line, sub1AsU32 l.end_column with
  | some sl, some sc, some el, some ec =>
    some { range := { start := { line := sl, character := sc },
                      stop := { line := el, character := ec } },
           severity := some DiagnosticSeverity.warning,
           source := some "sqlfluff-lsp",
           message := l.message }
  | _, _, _, _ => none

/-- The whole conversion applied in order to every record of a successful
lint output (`src/sqlfluff.rs` lines 45-63); a panicking record aborts the
cycle. -/
def lintDiags (ls : List LintOutput) : Option (List Diagnostic) :=
  ls.mapM lintRecordToDiag

/-- The expected diagnostic for a record whose positions are all at least 1
and small enough not to truncate: each coordinate is exactly the 1-based
value decreased by one. -/
def expectedDiag (l : LintOutput) : Diagnostic :=
  { range := { start := { line := l.start_line - 1, character := l.start_column - 1 },
               stop := { line := l.end_line - 1, character := l.end_column - 1 } },
    severity := some DiagnosticSeverity.warning,
    source := some "sqlfluff-lsp",
    message := l.message }

/-- All four positions of a record are at least 1 (the implicit 1-based
precondition of the conversion). -/
def posValid (l : LintOutput) : Prop :=
  1 ≤ l.start_line ∧ 1 ≤ l.start_column ∧ 1 ≤ l.end_line ∧ 1 ≤ l.end_column

instance (l : LintOutput) : Decidable (posValid l) := by
  unfold posValid; infer_instance

/-- All four positions fit the `u32` range after the decrement, so the
`as u32` truncation is lossless. -/
def posSmall (l : LintOutput) : Prop :=
  l.start_line ≤ 4294967296 ∧ l.start_column ≤ 4294967296 ∧
  l.end_line ≤ 4294967296 ∧ l.end_column ≤ 4294967296

instance (l : LintOutput) : Decidable (posSmall l) := by
  unfold posSmall; infer_instance

/-! ## Formatting (`src/sqlfluff.rs` lines 69-108) -/

/-- The UTF-16 code-unit length of a string, mirroring
`str::encode_utf16().count()`: characters above U+FFFF take two units. -/
def utf16Len (s : String) : Nat :=
  (s.data.map (fun c => if c.toNat ≥ 65536 then 2 else 1)).sum

/-- Splits a character list at every newline; the newline characters are
consumed. The result is always nonempty: the final group is the tail after
the last newline (possibly empty). -/
def splitNL (cs : List Char) : List (List Char) :=
  match cs with
  | [] => [[]]
  | c :: rest =>
    if c = '\n' then [] :: splitNL rest
    else
      match splitNL rest with
      | [] => [[c]]
      | g :: gs => (c :: g) :: gs

/-- Strips one trailing carriage return from a character list. -/
def stripCRl (cs : List Char) : List Char :=
  match cs.getLast? with
  | some c => if c = '\r' then cs.dropLast else cs
  | none => cs

/-- Rust `str::lines()`: every segment that was followed by a newline loses
one trailing carriage return; the tail after the last newline is a final
line only when nonempty (so a trailing line ending produces no extra empty
line, and a final segment keeps a bare trailing carriage return). -/
def rustLines (s : String) : List String :=
  let parts := splitNL s.data
  (parts.dropLast.map (fun g => String.mk (stripCRl g))) ++
    (match parts.getLast? with
     | some g => if g = [] then [] else [String.mk g]
     | none => [])

/-- The `line_count` computed by the loop in `fmt`
(`src/sqlfluff.rs` lines 91-98): the number of lines of the input. -/
def lineCount (s : String) : Nat := (rustLines s).length

/-- The `last_line_len` computed by the same loop: the UTF-16 length of the
last line, truncated by `as u32`, and 0 when the input has no lines. -/
def lastLineLen (s : String) : Nat :=
  match (rustLines s).getLast? with
  | some l => utf16Len l % 4294967296
  | none => 0

/-- The single `TextEdit` built by `fmt` (`src/sqlfluff.rs` lines 101-107):
the range runs from (0,0) to (`line_count`, `last_line_len`) and the new
text is the whole analyzer output. -/
def fmtEdit (content formatted : String) : TextEdit :=
  { range := { start := { line := 0, character := 0 },
               stop := { line := lineCount content, character := lastLineLen content } },
    newText := formatted }

/-- The end position the specification describes for the formatting edit:
the position immediately after the last character of the last line, i.e.
the 0-based index of the last line paired with its length. This definition
follows the words of the specification, for comparison with `fmtEdit`. -/
def specFormatEndPos (content : String) : Position :=
  { line := lineCount content - 1, character := lastLineLen content }

/-- The result of waiting on the spawned process: the exit code as reported
by `ExitStatus::code()` (`none` when killed by a signal) and the captured
standard output, decoded as text. -/
structure ProcOutput where
  status : Option Int
  stdout : String
deriving DecidableEq, Repr

/-- `fmt` after the process ran (`src/sqlfluff.rs` lines 84-108): a spawn
or I/O failure (the `Except.error` case of `exec`) propagates; exit codes
0 and 1 are success and produce the single whole-document edit from the
captured output; any other exit status is an error. -/
def fmtRun (content : String) (exec : Except String ProcOutput) :
    Except String (List TextEdit) :=
  match exec with
  | Except.error e => Except.error e
  | Except.ok out =>
    match out.status with
    | some 0 => Except.ok [fmtEdit content out.stdout]
    | some 1 => Except.ok [fmtEdit content out.stdout]
    | _ => Except.error "`sqlfluff fix` failed"

/-! ## Document registry (`src/lsp.rs`)

The registry is `watchers: RwLock<HashMap<Uri, Watcher>>`; each `Watcher`
bundles the sender and a receiver of one tokio `watch` channel. At the
registry level a watcher is modelled by the latest published text together
with the channel version (incremented on every send). The map is modelled
as an association list with unique keys. -/

/-- The registry-level view of one `Watcher`: the latest value held by the
watch channel and the number of sends so far. -/
structure WatcherM where
  value : String
  version : Nat
deriving DecidableEq, Repr

/-- The registry map from URI to watcher. -/
def Registry := List (String × WatcherM)

instance : DecidableEq Registry := by
  unfold Registry; infer_instance

/-- Map lookup. -/
def lookupW (reg : Registry) (uri : String) : Option WatcherM :=
  match reg with
  | [] => none
  | (k, w) :: rest => if k = uri then some w else lookupW rest uri

/-- `tx.send(text)` as seen from the registry: the channel now holds
`text` and the version advances. -/
def sendW (w : WatcherM) (text : String) : WatcherM :=
  { value := text, version := w.version + 1 }

/-- `and_modify(|watcher| watcher.tx.send(text))`: publishes `text` into
the entry for `uri`, leaving every other entry alone. -/
def updateW (reg : Registry) (uri text : String) : Registry :=
  match reg with
  | [] => []
  | (k, w) :: rest =>
    if k = uri then (k, sendW w text) :: rest else (k, w) :: updateW rest uri text

/-- `watchers.remove(&uri)`: drops the entry for `uri`; dropping the
`Watcher` drops the channel sender, which closes the channel for the
revalidation task. -/
def removeW (reg : Registry) (uri : String) : Registry :=
  match reg with
  | [] => []
  | (k, w) :: rest =>
    if k = uri then removeW rest uri else (k, w) :: removeW rest uri

/-- `did_open` (`src/lsp.rs` lines 102-141) at the registry level: on an
existing entry the initial text is published into it (`and_modify`), no
task is spawned; on a fresh URI a channel initialized to the text is
inserted and a revalidation task is spawned (`or_insert_with`). The
boolean reports whether a task was spawned. -/
def did_open (reg : Registry) (uri text : String) : Registry × Bool :=
  match lookupW reg uri with
  | some _ => (updateW reg uri text, false)
  | none => ((uri, { value := text, version := 0 }) :: reg, true)

/-- `did_close` (`src/lsp.rs` lines 143-151): removes the entry, then
publishes an empty diagnostics list for the URI. The second component is
the `publish_diagnostics(uri, vec![], None)` event. -/
def did_close (reg : Registry) (uri : String) : Registry × (String × List Diagnostic) :=
  (removeW reg uri, (uri, []))

/-- `did_change` (`src/lsp.rs` lines 153-165): publishes the text of the
first content change, when one exists, into the entry for the URI; later
changes in the same notification are never read, and an empty change list
publishes nothing. -/
def did_change (reg : Registry) (uri : String) (changes : List String) : Registry :=
  match changes.head? with
  | some c =>
    match lookupW reg uri with
    | some _ => updateW reg uri c
    | none => reg
  | none => reg

/-- `did_save` (`src/lsp.rs` lines 167-179): publishes the saved text when
the notification carries one and the document is open. -/
def did_save (reg : Registry) (uri : String) (text : Option String) : Registry :=
  match text with
  | some t =>
    match lookupW reg uri with
    | some _ => updateW reg uri t
    | none => reg
  | none => reg

/-- The `formatting` handler (`src/lsp.rs` lines 72-100): looks the URI up
in the registry; when absent, no edit is returned. Otherwise the fix
invocation runs on the current text; on success its edits are returned, on
failure the error is logged and shown to the operator (modelled by
appending to `errors`) and no edit is returned. -/
def formatting (reg : Registry) (uri : String) (exec : Except String ProcOutput)
    (errors : List String) : Option (List TextEdit) × List String :=
  match lookupW reg uri with
  | none => (none, errors)
  | some w =>
    match fmtRun w.value exec with
    | Except.ok edits => (some edits, errors)
    | Except.error e => (none, errors ++ [e])

/-- One incoming notification, for reasoning about whole sessions. -/
inductive LspOp where
  | openDoc (uri text : String)
  | changeDoc (uri : String) (changes : List String)
  | saveDoc (uri : String) (text : Option String)
  | closeDoc (uri : String)

/-- The server state tracked across a session: the registry plus the URIs
of the live revalidation tasks (one is spawned by `or_insert_with` on a
fresh open; removing the entry closes its channel, which terminates the
task). -/
structure ServerState where
  reg : Registry
  tasks : List String

/-- How one notification transforms the server state. -/
def stepOp (s : ServerState) (op : LspOp) : ServerState :=
  match op with
  | LspOp.openDoc uri text =>
    match did_open s.reg uri text with
    | (reg, true) => { reg := reg, tasks := uri :: s.tasks }
    | (reg, false) => { s with reg := reg }
  | LspOp.changeDoc uri changes => { s with reg := did_change s.reg uri changes }
  | LspOp.saveDoc uri text => { s with reg := did_save s.reg uri text }
  | LspOp.closeDoc uri =>
    { reg := (did_close s.reg uri).fst,
      tasks := s.tasks.filter (fun k => decide (k ≠ uri)) }

/-- A whole session starting from the empty registry. -/
def runOps (ops : List LspOp) : ServerState :=
  ops.foldl stepOp { reg := [], tasks := [] }

/-! ## The revalidation loop (`src/lsp.rs` lines 119-137)

The loop spawned on first open repeatedly reads the current text with
`borrow_and_update`, lints it, publishes diagnostics (or reports the
error), and suspends in `changed()`; it exits when `changed()` returns an
error, which happens exactly when the sender has been dropped (the entry
was removed) and no unseen value remains. The loop together with the
watch channel is modelled as a small-step transition system; producers
(the notification handlers) and the consumer loop interleave freely. -/

/-- The phase of the consumer loop. -/
inductive Consumer where
  | linting (text : String)
  | waiting
  | terminated
deriving DecidableEq, Repr

/-- The state of one document: the watch channel (`value`, `version`,
the receiver's `seen` mark, `closed` once the sender is dropped), the
edits not yet delivered by the protocol layer (`pending`), the consumer
phase, the texts whose lint cycle has started (`linted`, in order), the
diagnostics publications (`published`), and the operator-visible error
channel (`errors`). -/
structure SysState where
  value : String
  version : Nat
  seen : Nat
  pending : List String
  consumer : Consumer
  linted : List String
  published : List (List Diagnostic)
  errors : List String
  closed : Bool
deriving DecidableEq, Repr

/-- The state right after `did_open` on a fresh document with text `t0`,
with `es` the edits the protocol layer will deliver: the channel holds
`t0` at version 0, the receiver has marked it seen (the loop body starts
with `borrow_and_update`), and the first lint cycle on `t0` has started. -/
def initState (t0 : String) (es : List String) : SysState :=
  { value := t0, version := 0, seen := 0, pending := es,
    consumer := Consumer.linting t0, linted := [t0],
    published := [], errors := [], closed := false }

/-- One interleaved step of the document system.

  * `send`: the protocol layer delivers the next pending edit:
    `watcher.tx.send(text)` replaces the channel value and bumps the
    version; possible only while the entry (hence the sender) is alive.
  * `finishOk`: the in-flight lint invocation returned diagnostics `d`;
    the loop publishes them and proceeds to `changed()`.
  * `finishErr`: the invocation failed with message `e`; the loop logs and
    surfaces the error, publishes nothing, and proceeds to `changed()`.
  * `wake`: `changed()` observed an unseen version; `borrow_and_update`
    reads the latest value, marks it seen, and a new lint cycle starts on
    it — intermediate values are never observed.
  * `terminate`: `changed()` returns an error: the sender is dropped and
    no unseen value remains; the loop breaks.
  * `closeChan`: the registry entry is removed, dropping the sender. -/
inductive Step : SysState → SysState → Prop where
  | send (s : SysState) (e : String) (rest : List String) :
      s.pending = e :: rest → s.closed = false →
      Step s { s with value := e, version := s.version + 1, pending := rest }
  | finishOk (s : SysState) (t : String) (d : List Diagnostic) :
      s.consumer = Consumer.linting t →
      Step s { s with consumer := Consumer.waiting, published := s.published ++ [d] }
  | finishErr (s : SysState) (t : String) (e : String) :
      s.consumer = Consumer.linting t →
      Step s { s with consumer := Consumer.waiting, errors := s.errors ++ [e] }
  | wake (s : SysState) :
      s.consumer = Consumer.waiting → s.seen < s.version →
      Step s { s with consumer := Consumer.linting s.value, seen := s.version,
                      linted := s.linted ++ [s.value] }
  | terminate (s : SysState) :
      s.consumer = Consumer.waiting → s.version ≤ s.seen → s.closed = true →
      Step s { s with consumer := Consumer.terminated }
  | closeChan (s : SysState) :
      s.closed = false →
      Step s { s with closed := true }

/-- Zero or more interleaved steps. -/
inductive Reaches : SysState → SysState → Prop where
  | refl (s : SysState) : Reaches s s
  | step {s t u : SysState} : Step s t → Reaches t u → Reaches s u

/-- Invariant of the document system along any execution from `initState`:
the receiver never runs ahead of the channel (`seen_le`); the channel value
is the last delivered text and the version counts the deliveries
(`history`); each lint cycle after the first was started by a `wake`, which
strictly advances `seen` (`linted_len`); once every delivered text has been
observed, the last started lint cycle used the channel value
(`latest_linted`); and the consumer only terminates after the channel is
closed (`alive`). -/
structure DocInv (t0 : String) (es : List String) (s : SysState) : Prop where
  seen_le : s.seen ≤ s.version
  history : ∃ sent : List String,
    es = sent ++ s.pending ∧ s.version = sent.length ∧ s.value = (t0 :: sent).getLastD ""
  linted_len : s.linted.length ≤ s.seen + 1
  latest_linted : s.version ≤ s.seen → s.linted.getLastD "" = s.value
  alive : s.closed = false → s.consumer ≠ Consumer.terminated

/-- The registry keys never repeat and the live revalidation tasks are
exactly the registry keys. -/
def GoodState (s : ServerState) : Prop :=
  (s.reg.map Prod.fst).Nodup ∧ s.tasks = s.reg.map Prod.fst

/-- A settled state after opening with "a" and editing to "b" then "c"
while the first lint cycle was in flight: the cycle on "b" was coalesced
away and the last cycle used "c". -/
def coalesceDemoEnd : SysState :=
  { value := "c", version := 2, seen := 2, pending := [],
    consumer := Consumer.waiting, linted := ["a", "c"],
    published := [[], []], errors := [], closed := false }

/-! ## Invariant lemmas for the document system -/

theorem docInv_init (t0 : String) (es : List String) : DocInv t0 es (initState t0 es) := by
  refine ⟨Nat.le_refl 0, ⟨[], by simp [initState], rfl, rfl⟩, by simp [initState], ?_, ?_⟩
  · intro _; rfl
  · intro _ h; exact Consumer.noConfusion h

theorem docInv_step {t0 : String} {es : List String} {s s2 : SysState}
    (hinv : DocInv t0 es s) (hstep : Step s s2) : DocInv t0 es s2 := by
  obtain ⟨hle, ⟨sent, hes, hver, hval⟩, hlen, hlast, halive⟩ := hinv
  cases hstep with
  | send e rest hpend hclosed =>
    refine ⟨Nat.le_succ_of_le hle, ⟨sent ++ [e], ?_, ?_, ?_⟩, hlen, ?_, ?_⟩
    · rw [hes, hpend]; simp
    · simp [hver]
    · show e = (t0 :: (sent ++ [e])).getLastD ""
      rw [show t0 :: (sent ++ [e]) = (t0 :: sent) ++ [e] from rfl, List.getLastD_concat]
    · intro h
      have h2 : s.version + 1 ≤ s.seen := h
      omega
    · intro h2 h3; exact halive hclosed h3
  | finishOk t d hcons =>
    exact ⟨hle, ⟨sent, hes, hver, hval⟩, hlen, hlast, fun _ h => Consumer.noConfusion h⟩
  | finishErr t e hcons =>
    exact ⟨hle, ⟨sent, hes, hver, hval⟩, hlen, hlast, fun _ h => Consumer.noConfusion h⟩
  | wake hcons hlt =>
    refine ⟨Nat.le_refl _, ⟨sent, hes, hver, hval⟩, ?_, ?_, fun _ h => Consumer.noConfusion h⟩
    · show (s.linted ++ [s.value]).length ≤ s.version + 1
      rw [List.length_append]
      simp only [List.length_singleton]
      omega
    · intro _
      show (s.linted ++ [s.value]).getLastD "" = s.value
      rw [List.getLastD_concat]
  | terminate hcons hle2 hclosed =>
    refine ⟨hle, ⟨sent, hes, hver, hval⟩, hlen, hlast, ?_⟩
    intro h
    rw [show ({ s with consumer := Consumer.terminated } : SysState).closed = s.closed from rfl] at h
    rw [h] at hclosed
    exact absurd hclosed (by simp)
  | closeChan hclosed =>
    refine ⟨hle, ⟨sent, hes, hver, hval⟩, hlen, hlast, ?_⟩
    intro h
    exact absurd h (by simp)

theorem docInv_reaches {t0 : String} {es : List String} {s s2 : SysState}
    (hinv : DocInv t0 es s) (h : Reaches s s2) : DocInv t0 es s2 := by
  induction h with
  | refl s => exact hinv
  | step hstep _ ih => exact ih (docInv_step hinv hstep)

/-- Claim C1: for every open document, after any finite sequence of N edit
publications followed by a settling period (all edits delivered, all
delivered versions observed by the consumer), the revalidation loop has
started at most N lint cycles beyond the initial one, and the last lint
cycle used exactly the last text published: intermediate publications are
coalesced and the wake on `changed`/`borrow_and_update` yields only the
latest value. -/
theorem revalidation_coalesces_to_latest (t0 : String) (es : List String) (s : SysState)
    (hreach : Reaches (initState t0 es) s)
    (hsettled : s.pending = []) (hquiet : s.version ≤ s.seen) :
    s.linted.length ≤ es.length + 1 ∧ s.linted.getLastD "" = (t0 :: es).getLastD "" := by
  obtain ⟨hle, ⟨sent, hes, hver, hval⟩, hlen, hlast, -⟩ :=
    docInv_reaches (docInv_init t0 es) hreach
  rw [hsettled, List.append_nil] at hes
  subst hes
  constructor
  · omega
  · rw [hlast hquiet, hval]

/-- Witness for claim C1: a concrete interleaving in which "b" and "c" are
published while the cycle on "a" is in flight; only two cycles run and the
last one lints "c". -/
theorem revalidation_coalesces_to_latest_witness :
    coalesceDemoEnd.linted.length ≤ (["b", "c"] : List String).length + 1 ∧
    coalesceDemoEnd.linted.getLastD "" = (("a" : String) :: ["b", "c"]).getLastD "" := by
  refine revalidation_coalesces_to_latest "a" ["b", "c"] coalesceDemoEnd ?_ rfl (by decide)
  refine Reaches.step (Step.send (initState "a" ["b", "c"]) "b" ["c"] rfl rfl) ?_
  refine Reaches.step (Step.send _ "c" [] rfl rfl) ?_
  refine Reaches.step (Step.finishOk _ "a" [] rfl) ?_
  refine Reaches.step (Step.wake _ rfl (by decide)) ?_
  refine Reaches.step (Step.finishOk _ "c" [] rfl) ?_
  exact Reaches.refl _

/-! ## Close and termination -/

theorem lookupW_removeW (reg : Registry) (uri : String) :
    lookupW (removeW reg uri) uri = none := by
  induction reg with
  | nil => rfl
  | cons p rest ih =>
    obtain ⟨k, w⟩ := p
    by_cases hk : k = uri <;> simp [removeW, hk, lookupW, ih]

theorem closed_waiting_reaches_terminated (s : SysState)
    (hw : s.consumer = Consumer.waiting) (hc : s.closed = true) :
    ∃ s2, Reaches s s2 ∧ s2.consumer = Consumer.terminated := by
  by_cases hle : s.version ≤ s.seen
  · exact ⟨_, Reaches.step (Step.terminate s hw hle hc) (Reaches.refl _), rfl⟩
  · have hlt : s.seen < s.version := Nat.lt_of_not_le hle
    refine ⟨_, Reaches.step (Step.wake s hw hlt)
      (Reaches.step (Step.finishOk _ s.value [] rfl)
        (Reaches.step (Step.terminate _ rfl (Nat.le_refl s.version) hc)
          (Reaches.refl _))), rfl⟩

theorem reaches_terminated_of_closed (s : SysState) (hc : s.closed = true) :
    ∃ s2, Reaches s s2 ∧ s2.consumer = Consumer.terminated := by
  cases hcons : s.consumer with
  | terminated => exact ⟨s, Reaches.refl s, hcons⟩
  | waiting => exact closed_waiting_reaches_terminated s hcons hc
  | linting t =>
    obtain ⟨s2, hr, ht⟩ := closed_waiting_reaches_terminated
      { s with consumer := Consumer.waiting, published := s.published ++ [[]] } rfl hc
    exact ⟨s2, Reaches.step (Step.finishOk s t [] hcons) hr, ht⟩

/-- Claim C4: `did_close` removes the registry entry for the URI (so a
later lookup finds nothing), which drops the channel sender; from any
closed channel state — whatever failures happened while the document was
open — the revalidation task reaches `terminated`; and the handler sends an
empty diagnostics set for the URI after the removal. -/
theorem close_clears_and_terminates (reg : Registry) (uri : String) (s : SysState)
    (hclosed : s.closed = true) :
    lookupW (did_close reg uri).fst uri = none ∧
    (did_close reg uri).snd = (uri, ([] : List Diagnostic)) ∧
    ∃ s2, Reaches s s2 ∧ s2.consumer = Consumer.terminated :=
  ⟨lookupW_removeW reg uri, rfl, reaches_terminated_of_closed s hclosed⟩

/-- Witness for claim C4: closing a one-document registry, with the task
state taken right after the channel closed while the first lint cycle was
still running. -/
theorem close_clears_and_terminates_witness :
    lookupW (did_close [("u", { value := "a", version := 0 })] "u").fst "u" = none ∧
    (did_close [("u", { value := "a", version := 0 })] "u").snd = ("u", ([] : List Diagnostic)) ∧
    ∃ s2, Reaches { initState "a" [] with closed := true } s2 ∧
      s2.consumer = Consumer.terminated :=
  close_clears_and_terminates [("u", { value := "a", version := 0 })] "u"
    { initState "a" [] with closed := true } rfl

/-- Claim C5: a failed lint invocation makes the loop log and surface the
error to the operator-visible channel, publish no diagnostics for that
cycle, and return to waiting; and along any execution of an open document
(channel not closed) the task is never terminated — a failed cycle cannot
end the loop, only closing the channel can. -/
theorem lint_failure_keeps_task_alive :
    (∀ (s : SysState) (t e : String), s.consumer = Consumer.linting t →
       Step s { s with consumer := Consumer.waiting, errors := s.errors ++ [e] } ∧
       ({ s with consumer := Consumer.waiting, errors := s.errors ++ [e] } : SysState).published
         = s.published ∧
       ({ s with consumer := Consumer.waiting, errors := s.errors ++ [e] } : SysState).consumer
         ≠ Consumer.terminated) ∧
    (∀ (t0 : String) (es : List String) (s : SysState),
       Reaches (initState t0 es) s → s.closed = false →
       s.consumer ≠ Consumer.terminated) := by
  constructor
  · intro s t e h
    exact ⟨Step.finishErr s t e h, rfl, fun h2 => Consumer.noConfusion h2⟩
  · intro t0 es s hr hc
    exact (docInv_reaches (docInv_init t0 es) hr).alive hc

/-- Witness for claim C5: a concrete failing cycle on the freshly opened
document "x". -/
theorem lint_failure_keeps_task_alive_witness :
    Step (initState "x" []) { (initState "x" []) with
      consumer := Consumer.waiting
      errors := (initState "x" []).errors ++ ["lint failed"] } ∧
    (initState "x" []).consumer ≠ Consumer.terminated :=
  ⟨(lint_failure_keeps_task_alive.1 (initState "x" []) "x" "lint failed" rfl).1,
   lint_failure_keeps_task_alive.2 "x" [] (initState "x" []) (Reaches.refl _) rfl⟩

/-! ## Registry invariants -/

theorem keys_updateW (reg : Registry) (uri text : String) :
    (updateW reg uri text).map Prod.fst = reg.map Prod.fst := by
  induction reg with
  | nil => rfl
  | cons p rest ih =>
    obtain ⟨k, w⟩ := p
    by_cases hk : k = uri <;> simp [updateW, hk, ih]

theorem lookupW_updateW (reg : Registry) (uri text : String) (w : WatcherM)
    (h : lookupW reg uri = some w) :
    lookupW (updateW reg uri text) uri = some (sendW w text) := by
  induction reg with
  | nil => exact absurd h (by simp [lookupW])
  | cons p rest ih =>
    obtain ⟨k, w2⟩ := p
    by_cases hk : k = uri
    · simp [lookupW, hk] at h
      simp [updateW, lookupW, hk, h]
    · simp only [lookupW, if_neg hk] at h
      simp only [updateW, if_neg hk, lookupW]
      exact ih h

theorem not_mem_keys_of_lookupW_none (reg : Registry) (uri : String)
    (h : lookupW reg uri = none) : uri ∉ reg.map Prod.fst := by
  induction reg with
  | nil => simp
  | cons p rest ih =>
    obtain ⟨k, w⟩ := p
    by_cases hk : k = uri
    · simp [lookupW, hk] at h
    · simp only [lookupW, if_neg hk] at h
      simp only [List.map_cons, List.mem_cons]
      rintro (h2 | h2)
      · exact hk h2.symm
      · exact ih h h2

theorem keys_removeW (reg : Registry) (uri : String) :
    (removeW reg uri).map Prod.fst =
      (reg.map Prod.fst).filter (fun k => decide (k ≠ uri)) := by
  induction reg with
  | nil => rfl
  | cons p rest ih =>
    obtain ⟨k, w⟩ := p
    by_cases hk : k = uri <;> simp [removeW, hk, List.filter_cons, ih]

theorem stepOp_good (s : ServerState) (op : LspOp) (h : GoodState s) :
    GoodState (stepOp s op) := by
  obtain ⟨hnodup, htasks⟩ := h
  cases op with
  | openDoc uri text =>
    cases hl : lookupW s.reg uri with
    | some w =>
      refine ⟨?_, ?_⟩ <;> simp only [stepOp, did_open, hl, keys_updateW]
      · exact hnodup
      · exact htasks
    | none =>
      refine ⟨?_, ?_⟩ <;> simp only [stepOp, did_open, hl, List.map_cons]
      · exact List.nodup_cons.mpr ⟨not_mem_keys_of_lookupW_none s.reg uri hl, hnodup⟩
      · rw [htasks]
  | changeDoc uri changes =>
    cases hc : changes.head? with
    | none => exact ⟨by simp [stepOp, did_change, hc, hnodup],
        by simp [stepOp, did_change, hc, htasks]⟩
    | some c =>
      cases hl : lookupW s.reg uri with
      | none => exact ⟨by simp [stepOp, did_change, hc, hl, hnodup],
          by simp [stepOp, did_change, hc, hl, htasks]⟩
      | some w => exact ⟨by simp [stepOp, did_change, hc, hl, keys_updateW, hnodup],
          by simp [stepOp, did_change, hc, hl, keys_updateW, htasks]⟩
  | saveDoc uri text =>
    cases ht : text with
    | none => exact ⟨by simp [stepOp, did_save, ht, hnodup],
        by simp [stepOp, did_save, ht, htasks]⟩
    | some t =>
      cases hl : lookupW s.reg uri with
      | none => exact ⟨by simp [stepOp, did_save, ht, hl, hnodup],
          by simp [stepOp, did_save, ht, hl, htasks]⟩
      | some w => exact ⟨by simp [stepOp, did_save, ht, hl, keys_updateW, hnodup],
          by simp [stepOp, did_save, ht, hl, keys_updateW, htasks]⟩
  | closeDoc uri =>
    refine ⟨?_, ?_⟩ <;> simp only [stepOp, did_close, keys_removeW]
    · exact hnodup.filter _
    · rw [htasks]

theorem runOps_good_aux (ops : List LspOp) (s : ServerState) (h : GoodState s) :
    GoodState (ops.foldl stepOp s) := by
  induction ops generalizing s with
  | nil => exact h
  | cons op rest ih => exact ih _ (stepOp_good s op h)

/-- Claim C6: across any session of notifications the registry keys never
repeat (at most one entry per document identity) and the live revalidation
tasks are exactly the registry keys (at most one task per identity); a
`did_open` on an already-open identity publishes the new initial text into
the existing document state without inserting an entry or spawning a task,
while a `did_open` on a fresh identity inserts an entry initialized to the
text and spawns exactly one task. -/
theorem registry_one_entry_one_task :
    (∀ ops : List LspOp, ((runOps ops).reg.map Prod.fst).Nodup ∧
        (runOps ops).tasks = (runOps ops).reg.map Prod.fst) ∧
    (∀ (s : ServerState) (uri text : String) (w : WatcherM),
        lookupW s.reg uri = some w →
        stepOp s (LspOp.openDoc uri text) = { s with reg := updateW s.reg uri text } ∧
        lookupW (stepOp s (LspOp.openDoc uri text)).reg uri = some (sendW w text)) ∧
    (∀ (s : ServerState) (uri text : String),
        lookupW s.reg uri = none →
        stepOp s (LspOp.openDoc uri text) =
          { reg := (uri, { value := text, version := 0 }) :: s.reg,
            tasks := uri :: s.tasks }) := by
  refine ⟨fun ops => runOps_good_aux ops _ ⟨List.nodup_nil, rfl⟩, ?_, ?_⟩
  · intro s uri text w h
    constructor
    · simp [stepOp, did_open, h]
    · simp only [stepOp, did_open, h]
      exact lookupW_updateW s.reg uri text w h
  · intro s uri text h
    simp [stepOp, did_open, h]

/-- Witness for claim C6: a duplicate open updates the existing entry in
place, and an open of a fresh identity inserts it and records its task. -/
theorem registry_one_entry_one_task_witness :
    (stepOp { reg := [("u", { value := "a", version := 0 })], tasks := ["u"] }
        (LspOp.openDoc "u" "b") =
      { reg := updateW [("u", { value := "a", version := 0 })] "u" "b", tasks := ["u"] } ∧
     lookupW (stepOp { reg := [("u", { value := "a", version := 0 })], tasks := ["u"] }
        (LspOp.openDoc "u" "b")).reg "u" = some (sendW { value := "a", version := 0 } "b")) ∧
    stepOp { reg := [], tasks := [] } (LspOp.openDoc "v" "c") =
      { reg := [("v", { value := "c", version := 0 })], tasks := ["v"] } :=
  ⟨⟨(registry_one_entry_one_task.2.1 { reg := [("u", { value := "a", version := 0 })], tasks := ["u"] } "u" "b" { value := "a", version := 0 } rfl).1,
    (registry_one_entry_one_task.2.1 { reg := [("u", { value := "a", version := 0 })], tasks := ["u"] } "u" "b" { value := "a", version := 0 } rfl).2⟩,
   registry_one_entry_one_task.2.2 { reg := [], tasks := [] } "v" "c" rfl⟩

/-- Claim C10: a change notification publishes only the text of the first
content change: any further changes in the same notification cannot affect
the result, an empty change list publishes nothing, and on an open
document the registry entry is updated with exactly the first change. -/
theorem change_publishes_first_only :
    (∀ (reg : Registry) (uri c : String) (rest : List String),
        did_change reg uri (c :: rest) = did_change reg uri [c]) ∧
    (∀ (reg : Registry) (uri : String), did_change reg uri [] = reg) ∧
    (∀ (reg : Registry) (uri c : String) (rest : List String) (w : WatcherM),
        lookupW reg uri = some w →
        did_change reg uri (c :: rest) = updateW reg uri c) := by
  refine ⟨fun reg uri c rest => rfl, fun reg uri => rfl, ?_⟩
  intro reg uri c rest w h
  simp [did_change, h]

/-- Witness for claim C10: on a one-document registry the second change
"zzz" is ignored and the first change "b" is published. -/
theorem change_publishes_first_only_witness :
    did_change [("u", { value := "a", version := 0 })] "u" ["b", "zzz"] =
      updateW [("u", { value := "a", version := 0 })] "u" "b" :=
  change_publishes_first_only.2.2 [("u", { value := "a", version := 0 })] "u" "b" ["zzz"]
    { value := "a", version := 0 } rfl

/-! ## Lint output conversion -/

theorem sub1AsU32_eq (x : Nat) (h1 : 1 ≤ x) (h2 : x ≤ 4294967296) :
    sub1AsU32 x = some (x - 1) := by
  unfold sub1AsU32
  rw [if_neg (by omega), Nat.mod_eq_of_lt (by omega)]

theorem lintRecordToDiag_eq (l : LintOutput) (hv : posValid l) (hs : posSmall l) :
    lintRecordToDiag l = some (expectedDiag l) := by
  obtain ⟨h1, h2, h3, h4⟩ := hv
  obtain ⟨g1, g2, g3, g4⟩ := hs
  unfold lintRecordToDiag
  rw [sub1AsU32_eq _ h1 g1, sub1AsU32_eq _ h2 g2, sub1AsU32_eq _ h3 g3, sub1AsU32_eq _ h4 g4]
  rfl

theorem lintRecordToDiag_isSome (l : LintOutput) :
    (lintRecordToDiag l).isSome = true ↔ posValid l := by
  unfold lintRecordToDiag sub1AsU32 posValid
  by_cases h1 : l.start_line = 0 <;> by_cases h2 : l.start_column = 0 <;>
    by_cases h3 : l.end_line = 0 <;> by_cases h4 : l.end_column = 0 <;>
    simp [h1, h2, h3, h4] <;> omega

theorem mapM_isSome_iff {α β : Type} (f : α → Option β) (ls : List α) :
    (ls.mapM f).isSome = true ↔ ∀ l ∈ ls, (f l).isSome = true := by
  induction ls with
  | nil => rw [List.mapM_nil]; simp
  | cons a rest ih =>
    rw [List.mapM_cons]
    cases hf : f a with
    | none => simp [hf]
    | some b =>
      cases hr : rest.mapM f with
      | none =>
        show (none : Option (List β)).isSome = true ↔ ∀ l ∈ a :: rest, (f l).isSome = true
        have hx : ¬ ∀ l ∈ rest, (f l).isSome = true := by
          intro hall
          have h2 := ih.mpr hall
          rw [hr] at h2
          simp at h2
        constructor
        · intro h; simp at h
        · intro h
          exact absurd (fun l hl => h l (List.mem_cons_of_mem a hl)) hx
      | some bs =>
        show (some (b :: bs)).isSome = true ↔ ∀ l ∈ a :: rest, (f l).isSome = true
        have hy : ∀ l ∈ rest, (f l).isSome = true := ih.mp (by rw [hr]; rfl)
        constructor
        · intro _ l hl
          rcases List.mem_cons.mp hl with h | h
          · rw [h, hf]; rfl
          · exact hy l h
        · intro _; rfl

/-- Claim C7: on a successful lint output in which every record carries
1-based positions (and each fits the u32 range after the decrement, so the
`as u32` cast is lossless), the conversion is the pure per-record mapping,
applied in order, that decreases each start and end line and column by
one, fixes the severity to warning, and tags the source "sqlfluff-lsp". -/
theorem lint_conversion_maps_records (ls : List LintOutput)
    (h : ∀ l ∈ ls, posValid l ∧ posSmall l) :
    lintDiags ls = some (ls.map expectedDiag) := by
  unfold lintDiags
  induction ls with
  | nil => rfl
  | cons a rest ih =>
    have ha := h a (List.mem_cons_self a rest)
    have hrest := ih (fun l hl => h l (List.mem_cons_of_mem a hl))
    rw [List.mapM_cons, lintRecordToDiag_eq a ha.1 ha.2, hrest]
    rfl

/-- Witness for claim C7: a concrete two-record output is converted
record by record. -/
theorem lint_conversion_maps_records_witness :
    lintDiags [{ start_line := 1, start_column := 1, end_line := 2, end_column := 68, message := "m1" },
               { start_line := 3, start_column := 1, end_line := 3, end_column := 5, message := "m2" }] =
      some ([{ start_line := 1, start_column := 1, end_line := 2, end_column := 68, message := "m1" },
             { start_line := 3, start_column := 1, end_line := 3, end_column := 5, message := "m2" }].map expectedDiag) :=
  lint_conversion_maps_records _ (by decide)

/-- Claim C9: the 1-based-to-0-based conversion is total exactly when every
reported position is at least 1; an output containing a 0 position makes
the unsigned subtraction underflow (a panic in debug builds, modelled as
`none`), so the error branch is unreachable precisely under the all-ones
precondition. -/
theorem lint_conversion_total_iff :
    (∀ ls : List LintOutput, (lintDiags ls).isSome = true ↔ ∀ l ∈ ls, posValid l) ∧
    lintDiags [{ start_line := 0, start_column := 1, end_line := 1, end_column := 1, message := "m" }] = none := by
  constructor
  · intro ls
    unfold lintDiags
    rw [mapM_isSome_iff]
    exact forall₂_congr (fun l _ => lintRecordToDiag_isSome l)
  · decide

/-- Witness for claim C9: the totality equivalence instantiated at a
concrete singleton output with valid positions. -/
theorem lint_conversion_total_iff_witness :
    (lintDiags ([{ start_line := 2, start_column := 3, end_line := 2, end_column := 4, message := "w" }] : List LintOutput)).isSome = true ↔
      ∀ l ∈ ([{ start_line := 2, start_column := 3, end_line := 2, end_column := 4, message := "w" }] : List LintOutput), posValid l :=
  lint_conversion_total_iff.1 _

/-! ## Configuration handling -/

/-- Claim C2 (evidence of the divergence): every lint and fix invocation
spawns the hard-coded program "sqlfluff" whatever the configuration says,
and the invocation is unchanged when the templater and the path override
are erased — only the dialect reaches the command line, as `--dialect=`
followed by the configured value. In particular a configured path override
"/opt/sqlfluff" is not used as the program. -/
theorem analyzer_path_templater_ignored :
    (∀ (cfg : Config) (path : String),
        (lintInvocation cfg path).program = "sqlfluff" ∧
        (fixInvocation cfg path).program = "sqlfluff" ∧
        lintInvocation cfg path =
          lintInvocation { dialect := cfg.dialect, templater := none, sqlfluff_path := none } path ∧
        fixInvocation cfg path =
          fixInvocation { dialect := cfg.dialect, templater := none, sqlfluff_path := none } path ∧
        ∀ d, cfg.dialect = some d → ("--dialect=" ++ d) ∈ (lintInvocation cfg path).args) ∧
    (lintInvocation { dialect := none, templater := some "jinja", sqlfluff_path := some "/opt/sqlfluff" } "f.sql").program = "sqlfluff" := by
  constructor
  · intro cfg path
    refine ⟨?_, ?_, rfl, rfl, ?_⟩
    · cases hd : cfg.dialect <;> simp [lintInvocation, cmdArgs, cmdDialect, sqlfluffNew, hd]
    · cases hd : cfg.dialect <;> simp [fixInvocation, cmdArgs, cmdDialect, sqlfluffNew, hd]
    · intro d hd
      simp [lintInvocation, cmdArgs, cmdDialect, sqlfluffNew, hd]
  · rfl

/-- Witness for claim C2: the configured dialect "ansi" does reach the
command line of the lint invocation. -/
theorem analyzer_path_templater_ignored_witness :
    ("--dialect=" ++ "ansi") ∈
      (lintInvocation { dialect := some "ansi", templater := none, sqlfluff_path := none } "f.sql").args :=
  (analyzer_path_templater_ignored.1 { dialect := some "ansi", templater := none, sqlfluff_path := none } "f.sql").2.2.2.2 "ansi" rfl

/-! ## Formatting -/

/-- Claim C8: the fix invocation is a success exactly for exit codes 0 and
1, in which case the single whole-document edit built from the captured
output is produced; a spawn failure or any other exit status yields no
edit, and the `formatting` handler then logs and surfaces the failure on
the operator-visible channel. -/
theorem fix_exit_code_interpretation :
    (∀ (content : String) (exec : Except String ProcOutput),
        (∃ edits, fmtRun content exec = Except.ok edits) ↔
          ∃ o, exec = Except.ok o ∧ (o.status = some 0 ∨ o.status = some 1)) ∧
    (∀ (content : String) (o : ProcOutput),
        o.status = some 0 ∨ o.status = some 1 →
        fmtRun content (Except.ok o) = Except.ok [fmtEdit content o.stdout]) ∧
    (∀ (reg : Registry) (uri : String) (w : WatcherM) (exec : Except String ProcOutput)
        (errs : List String) (e : String),
        lookupW reg uri = some w → fmtRun w.value exec = Except.error e →
        formatting reg uri exec errs = (none, errs ++ [e])) := by
  refine ⟨?_, ?_, ?_⟩
  · intro content exec
    constructor
    · intro ⟨edits, he⟩
      cases exec with
      | error e => exact absurd he (by simp [fmtRun])
      | ok o =>
        refine ⟨o, rfl, ?_⟩
        have he2 : (match o.status with
          | some 0 => Except.ok [fmtEdit content o.stdout]
          | some 1 => Except.ok [fmtEdit content o.stdout]
          | _ => (Except.error "`sqlfluff fix` failed" : Except String (List TextEdit)))
            = Except.ok edits := he
        split at he2
        · exact Or.inl (by assumption)
        · exact Or.inr (by assumption)
        · exact Except.noConfusion he2
    · rintro ⟨o2, ho, h01⟩
      cases exec with
      | error e => exact Except.noConfusion ho
      | ok o =>
        injection ho with h
        subst h
        rcases h01 with h | h <;>
          exact ⟨[fmtEdit content o.stdout], by simp [fmtRun, h]⟩
  · intro content o h
    rcases h with h | h <;> simp [fmtRun, h]
  · intro reg uri w exec errs e hlook hrun
    simp [formatting, hlook, hrun]

/-- Witness for claim C8: exit code 1 produces the whole-document edit;
exit code 2 on an open document produces no edit and reports the error. -/
theorem fix_exit_code_interpretation_witness :
    fmtRun "a" (Except.ok { status := some 1, stdout := "A" }) =
      Except.ok [fmtEdit "a" ({ status := some 1, stdout := "A" } : ProcOutput).stdout] ∧
    formatting [("u", { value := "a", version := 0 })] "u"
        (Except.ok { status := some 2, stdout := "" }) [] =
      (none, [] ++ ["`sqlfluff fix` failed"]) :=
  ⟨fix_exit_code_interpretation.2.1 "a" { status := some 1, stdout := "A" } (Or.inr rfl),
   fix_exit_code_interpretation.2.2 [("u", { value := "a", version := 0 })] "u"
     { value := "a", version := 0 } (Except.ok { status := some 2, stdout := "" }) []
     "`sqlfluff fix` failed" rfl rfl⟩

/-- Claim C3 (counterexample): on the one-line input "a" the produced edit
ends at position (1, 1) — line component equal to the line count — whereas
the position immediately after the last character of the last line, as the
specification words it, is (0, 1). The claimed end position is therefore
not the one the code produces. -/
theorem format_edit_end_position_counterexample :
    (fmtEdit "a" "A").range.stop ≠ specFormatEndPos "a" ∧
    (fmtEdit "a" "A").range.stop = { line := 1, character := 1 } ∧
    specFormatEndPos "a" = { line := 0, character := 1 } := by
  refine ⟨?_, ?_, ?_⟩ <;> decide

/-- Claim C3 as amended: when the fix invocation succeeds, exactly one edit
is produced; its range starts at (0, 0) and ends at the position whose line
is the number of lines of the input (one past the 0-based index of the
last line) and whose character is the UTF-16 length of the last line, and
its replacement text is the full rewritten document from the analyzer
output. -/
theorem format_edit_full_document (content : String) (o : ProcOutput)
    (h : o.status = some 0 ∨ o.status = some 1) :
    fmtRun content (Except.ok o) =
      Except.ok [{ range := { start := { line := 0, character := 0 },
                              stop := { line := lineCount content,
                                        character := lastLineLen content } },
                   newText := o.stdout }] := by
  rcases h with h | h <;> simp [fmtRun, h, fmtEdit]

/-- Witness for claim C3 as amended: a two-line input produces the single
edit ending at (2, 1). -/
theorem format_edit_full_document_witness :
    fmtRun "a\nb" (Except.ok { status := some 0, stdout := "A\nB\n" }) =
      Except.ok [{ range := { start := { line := 0, character := 0 },
                              stop := { line := lineCount "a\nb",
                                        character := lastLineLen "a\nb" } },
                   newText := ({ status := some 0, stdout := "A\nB\n" } : ProcOutput).stdout }] :=
  format_edit_full_document "a\nb" { status := some 0, stdout := "A\nB\n" } (Or.inl rfl)

end SqlfluffLsp
